import Mathlib

/-!
Verification development for the openclaw setup sidecar
(`setup-sidecar.mjs`).  The definitions below are a shallow embedding of
the sidecar's code: the RPC correlator (`waitForRes`, `waitForEvent`,
`parseWsMessage`), the device identity derivation
(`generateDeviceIdentity`), the canonical auth payload
(`buildDeviceAuthPayload`), the post-handshake control flow of `main`,
and the pairing daemon (`pairingListener`, `approvePending`).
JavaScript platform primitives that are not part of the repository
(`JSON.parse`, `crypto.subtle.digest`) appear as explicit function
parameters; fallible awaits are modelled by an explicit outcome type.
-/

/-! ## Auth payload construction (`buildDeviceAuthPayload`, lines 106-124) -/

/-- Parameters of `buildDeviceAuthPayload`.  Fields that may be absent in
the JavaScript object (`scopes`, `token`, `nonce`) are `Option`-typed;
`none` models `undefined`. -/
structure AuthParams where
  deviceId : String
  clientId : String
  clientMode : String
  role : String
  scopes : Option (List String)
  signedAtMs : Nat
  token : Option String
  nonce : Option String

/-- JavaScript truthiness of an optional string value: `undefined` and the
empty string are falsy, every other string is truthy.  This is the test
performed by `params.nonce ? "v2" : "v1"`. -/
def jsTruthy : Option String → Bool
  | none => false
  | some s => decide (s ≠ "")

/-- The ordered field list built by `buildDeviceAuthPayload`: the `base`
array of eight fields, with the nonce pushed as a ninth field exactly when
the version is `"v2"`. -/
def authPayloadFields (p : AuthParams) : List String :=
  let version := if jsTruthy p.nonce then "v2" else "v1"
  let base := [version, p.deviceId, p.clientId, p.clientMode, p.role,
    String.intercalate "," (p.scopes.getD []),
    toString p.signedAtMs, p.token.getD ""]
  if version = "v2" then base ++ [p.nonce.getD ""] else base

/-- The canonical signed payload: the field list joined with `"|"`
(`base.join("|")` in the source). -/
def buildDeviceAuthPayload (p : AuthParams) : String :=
  String.intercalate "|" (authPayloadFields p)

/-- C2.  For every input to payload construction: when a nonce is present
(a truthy, i.e. non-empty, nonce value — the test the code performs), the
version tag is `"v2"` and the nonce is the last of nine pipe-joined
fields; when no nonce is present the version tag is `"v1"` and no
trailing nonce field appears; the payload is exactly the pipe-joined
sequence version, deviceId, clientId, clientMode, role, comma-joined
scopes, signed-at timestamp, bearer token (then nonce for v2). -/
theorem c2_auth_payload_shape (p : AuthParams) :
    (∀ s : String, p.nonce = some s → s ≠ "" →
      buildDeviceAuthPayload p =
        String.intercalate "|" ["v2", p.deviceId, p.clientId, p.clientMode,
          p.role, String.intercalate "," (p.scopes.getD []),
          toString p.signedAtMs, p.token.getD "", s])
  ∧ (p.nonce = none →
      buildDeviceAuthPayload p =
        String.intercalate "|" ["v1", p.deviceId, p.clientId, p.clientMode,
          p.role, String.intercalate "," (p.scopes.getD []),
          toString p.signedAtMs, p.token.getD ""]) := by
  constructor
  · intro s hs hne
    simp [buildDeviceAuthPayload, authPayloadFields, jsTruthy, hs, hne]
  · intro hs
    simp [buildDeviceAuthPayload, authPayloadFields, jsTruthy, hs]

/-- C10.  An empty-string nonce is treated exactly like an absent nonce
(version `"v1"`, no nonce field appended, same payload); an absent or
empty scopes list yields an empty scopes field, an absent token an empty
token field; and the field list always has exactly 8 entries for v1 and 9
for v2. -/
theorem c10_empty_nonce_defaults (p : AuthParams) :
    (buildDeviceAuthPayload { p with nonce := some "" } =
       buildDeviceAuthPayload { p with nonce := none })
  ∧ (authPayloadFields { p with nonce := some "" }).head? = some "v1"
  ∧ (authPayloadFields { p with nonce := some "" }).length = 8
  ∧ (p.scopes = none ∨ p.scopes = some [] →
       (authPayloadFields p)[5]? = some "")
  ∧ (p.token = none → (authPayloadFields p)[7]? = some "")
  ∧ (authPayloadFields p).length = (if jsTruthy p.nonce then 9 else 8)
  ∧ (authPayloadFields p).head? =
      some (if jsTruthy p.nonce then "v2" else "v1") := by
  refine ⟨?_, ?_, ?_, ?_, ?_, ?_, ?_⟩
  · simp [buildDeviceAuthPayload, authPayloadFields, jsTruthy]
  · simp [authPayloadFields, jsTruthy]
  · simp [authPayloadFields, jsTruthy]
  · intro hsc
    cases h : jsTruthy p.nonce <;>
      rcases hsc with h1 | h1 <;>
        simp [authPayloadFields, h, h1, String.intercalate]
  · intro ht
    cases h : jsTruthy p.nonce <;> simp [authPayloadFields, h, ht]
  · cases h : jsTruthy p.nonce <;> simp [authPayloadFields, h]
  · cases h : jsTruthy p.nonce <;> simp [authPayloadFields, h]

/-! ## Device identity (`generateDeviceIdentity`, lines 87-104) -/

/-- Hex rendering of one byte: `b.toString(16).padStart(2, "0")`.
`Nat.toDigits 16` produces the same lowercase hex digits as JavaScript
`toString(16)`, and the pad prepends zeros up to width two. -/
def hexByte (b : Nat) : String :=
  let s := String.mk (Nat.toDigits 16 b)
  String.mk (List.replicate (2 - s.length) '0') ++ s

/-- Hex rendering of a byte array, joined with the empty separator:
`Array.from(bytes).map(hexByte).join("")`. -/
def hexOfBytes (bytes : List Nat) : String :=
  String.join (bytes.map hexByte)

/-- The standard base64 alphabet used by `btoa`. -/
def base64Table : List Char :=
  "ABCDEFGHIJKLMNOPQRSTUVWXYZabcdefghijklmnopqrstuvwxyz0123456789+/".data

/-- Character of the base64 alphabet with the given 6-bit index. -/
def b64Char (n : Nat) : Char :=
  base64Table.getD n 'A'

/-- Base64 encoding of a byte list in 3-byte groups with `=` padding,
as `btoa` does on the binary string built in `base64UrlEncode`. -/
def btoaGroups : List Nat → List Char
  | [] => []
  | [a] => [b64Char (a / 4), b64Char (a % 4 * 16), '=', '=']
  | [a, b] => [b64Char (a / 4), b64Char (a % 4 * 16 + b / 16),
      b64Char (b % 16 * 4), '=']
  | a :: b :: c :: rest =>
      b64Char (a / 4) :: b64Char (a % 4 * 16 + b / 16) ::
        b64Char (b % 16 * 4 + c / 64) :: b64Char (c % 64) :: btoaGroups rest

/-- URL-safe unpadded base64 (`base64UrlEncode`, lines 78-85): `btoa`
output with `+` replaced by `-`, `/` replaced by `_`, and the trailing
`=` padding stripped (`=` occurs only as padding, so dropping every `=`
equals stripping the trailing run). -/
def base64UrlEncode (bytes : List Nat) : String :=
  String.mk (((btoaGroups bytes).filter (fun ch => ch != '=')).map
    (fun ch => if ch = '+' then '-' else if ch = '/' then '_' else ch))

/-- An Ed25519 keypair as the sidecar sees it: the raw public key bytes
(exported with `exportKey "raw"`) and an abstract private half. -/
structure KeyPair where
  publicKeyRaw : List Nat
  privateKey : List Nat

/-- The `DeviceIdentity` record returned by `generateDeviceIdentity`. -/
structure DeviceIdentity where
  keyPair : KeyPair
  publicKeyB64Url : String
  deviceId : String
  privateKey : List Nat

/-- Shallow embedding of `generateDeviceIdentity` after key generation:
the platform digest `crypto.subtle.digest("SHA-256", ·)` is passed in as
an explicit function `sha256` on the raw bytes, and the freshly generated
keypair as `kp`.  `deviceId` is the hex rendering of the digest of the
raw public key bytes; no timestamp or salt is an input anywhere. -/
def generateDeviceIdentity (sha256 : List Nat → List Nat)
    (kp : KeyPair) : DeviceIdentity :=
  { keyPair := kp
    publicKeyB64Url := base64UrlEncode kp.publicKeyRaw
    deviceId := hexOfBytes (sha256 kp.publicKeyRaw)
    privateKey := kp.privateKey }

/-- C3.  `deviceId` is the hex encoding of the digest of the raw public
key bytes only, hence a pure deterministic function of the public key:
two keypairs with the same public key bytes — in particular with
different private keys — receive the same `deviceId`, and the id equals
`hexOfBytes (sha256 publicKeyRaw)` with no other input (the model has no
timestamp or salt parameter at all). -/
theorem c3_device_id_from_public_key (sha256 : List Nat → List Nat)
    (kp kp2 : KeyPair) (h : kp.publicKeyRaw = kp2.publicKeyRaw) :
    (generateDeviceIdentity sha256 kp).deviceId =
        (generateDeviceIdentity sha256 kp2).deviceId
  ∧ (generateDeviceIdentity sha256 kp).deviceId =
        hexOfBytes (sha256 kp.publicKeyRaw) := by
  constructor
  · simp [generateDeviceIdentity, h]
  · rfl

/-- Witness for C3 at a concrete input: the identity digest on key bytes
`[1, 2]` with two distinct private keys yields equal device ids, and the
id concretely evaluates to the hex string `"0102"`. -/
theorem c3_device_id_from_public_key_witness :
    (generateDeviceIdentity (fun l => l) ⟨[1, 2], [3]⟩).deviceId =
        (generateDeviceIdentity (fun l => l) ⟨[1, 2], [9]⟩).deviceId
  ∧ (generateDeviceIdentity (fun l => l) ⟨[1, 2], [3]⟩).deviceId = "0102" :=
  ⟨(c3_device_id_from_public_key (fun l => l) ⟨[1, 2], [3]⟩
      ⟨[1, 2], [9]⟩ rfl).1, by decide⟩

/-! ## RPC correlator (`parseWsMessage`, `waitForRes`, `waitForEvent`,
lines 28-74) -/

/-- A successfully parsed inbound frame.  The listeners only inspect
`type`, `id`, `ok`, `event`; payload and error values stay abstract in
the type parameter.  `other` stands for any valid JSON value that is
neither a response nor an event frame. -/
inductive RpcFrame (α : Type) where
  | res (id : String) (ok : Bool) (payload : α) (error : α)
  | event (name : String) (payload : α)
  | other
deriving DecidableEq

/-- A channel happening with its arrival time in milliseconds since the
wait under consideration was armed. -/
structure Timed (α : Type) where
  time : Nat
  msg : α
deriving DecidableEq

/-- Settlement of one of the promise-returning waits: resolution with a
payload, rejection with the server's error payload (`RPC error: ...`),
or rejection by the timer (`timeout waiting for ...`). -/
inductive WaitOutcome (α : Type) where
  | resolved (payload : α)
  | rpcError (error : α)
  | timedOut
deriving DecidableEq

/-- The raw argument of a message listener: either a `MessageEvent`
carrying `data`, or a bare value (the `"data" in ev` test in the
source). -/
inductive WsInput where
  | msgEvent (data : String)
  | bare (raw : String)

/-- Text extracted from the listener argument (`ev.data` if present,
otherwise `String(ev)`). -/
def wsInputData : WsInput → String
  | .msgEvent d => d
  | .bare r => r

/-- Shallow embedding of `parseWsMessage`: extract the text and run the
platform JSON parser, which is passed in as an `Option`-valued function —
the `try ... catch { return null }` of the source is exactly the `none`
result, so parsing is total by construction. -/
def parseWsMessage {α : Type} (jsonParse : String → Option (RpcFrame α))
    (ev : WsInput) : Option (RpcFrame α) :=
  jsonParse (wsInputData ev)

/-- Shallow embedding of `waitForRes`: the inbound parsed messages (with
`none` for a malformed frame) are scanned in arrival order; the timer
rejects as soon as real time reaches `timeoutMs`; a response frame whose
id matches resolves on `ok` and rejects with the error payload
otherwise; every other message is skipped. -/
def waitForRes {α : Type} (id : String) (timeoutMs : Nat) :
    List (Timed (Option (RpcFrame α))) → WaitOutcome α
  | [] => .timedOut
  | f :: rest =>
    if timeoutMs ≤ f.time then .timedOut
    else
      match f.msg with
      | some (RpcFrame.res fid ok payload err) =>
          if fid = id then
            if ok then .resolved payload else .rpcError err
          else waitForRes id timeoutMs rest
      | _ => waitForRes id timeoutMs rest

/-- Shallow embedding of `waitForEvent`: like `waitForRes` but matching
frames of type event on the event name, resolving with the payload; it
has no rejection path other than the timer. -/
def waitForEvent {α : Type} (name : String) (timeoutMs : Nat) :
    List (Timed (Option (RpcFrame α))) → WaitOutcome α
  | [] => .timedOut
  | f :: rest =>
    if timeoutMs ≤ f.time then .timedOut
    else
      match f.msg with
      | some (RpcFrame.event en payload) =>
          if en = name then .resolved payload
          else waitForEvent name timeoutMs rest
      | _ => waitForEvent name timeoutMs rest

/-- Does a parsed message satisfy `msg.type === "res" && msg.id === id`? -/
def matchesRes {α : Type} (id : String) : Option (RpcFrame α) → Bool
  | some (RpcFrame.res fid _ _ _) => decide (fid = id)
  | _ => false

/-- Does a parsed message satisfy
`msg.type === "event" && msg.event === name`? -/
def matchesEvent {α : Type} (name : String) : Option (RpcFrame α) → Bool
  | some (RpcFrame.event en _) => decide (en = name)
  | _ => false

/-- The prefix of the inbound trace delivered strictly before the timer
fires. -/
def beforeTimeout {α : Type} (timeoutMs : Nat)
    (l : List (Timed (Option (RpcFrame α)))) :
    List (Timed (Option (RpcFrame α))) :=
  l.takeWhile (fun f => f.time < timeoutMs)

theorem mem_of_mem_beforeTimeout {α : Type} {tmo : Nat}
    {l : List (Timed (Option (RpcFrame α)))} {f : Timed (Option (RpcFrame α))}
    (h : f ∈ beforeTimeout tmo l) : f ∈ l := by
  induction l with
  | nil => simp [beforeTimeout] at h
  | cons a rest ih =>
    rw [beforeTimeout, List.takeWhile_cons] at h
    by_cases ha : a.time < tmo
    · simp [ha] at h
      rcases h with h | h
      · exact h ▸ List.mem_cons_self _ _
      · exact List.mem_cons_of_mem _ (ih h)
    · simp [ha] at h

theorem beforeTimeout_cons_of_lt {α : Type} {tmo : Nat}
    {f : Timed (Option (RpcFrame α))} {rest : List (Timed (Option (RpcFrame α)))}
    (h : f.time < tmo) :
    beforeTimeout tmo (f :: rest) = f :: beforeTimeout tmo rest := by
  simp [beforeTimeout, List.takeWhile_cons, h]

theorem beforeTimeout_cons_of_ge {α : Type} {tmo : Nat}
    {f : Timed (Option (RpcFrame α))} {rest : List (Timed (Option (RpcFrame α)))}
    (h : tmo ≤ f.time) :
    beforeTimeout tmo (f :: rest) = [] := by
  simp [beforeTimeout, List.takeWhile_cons, Nat.not_lt.mpr h]

theorem waitForRes_timedOut_iff {α : Type} (id : String) (tmo : Nat)
    (frames : List (Timed (Option (RpcFrame α)))) :
    waitForRes id tmo frames = WaitOutcome.timedOut ↔
      ∀ f ∈ beforeTimeout tmo frames, matchesRes id f.msg = false := by
  induction frames with
  | nil => simp [waitForRes, beforeTimeout]
  | cons f rest ih =>
    obtain ⟨t, m⟩ := f
    by_cases ht : tmo ≤ t
    · simp [waitForRes, ht, beforeTimeout_cons_of_ge (f := ⟨t, m⟩) ht]
    · have ht2 : t < tmo := Nat.lt_of_not_le ht
      rw [beforeTimeout_cons_of_lt (f := ⟨t, m⟩) ht2]
      cases m with
      | none => simpa [waitForRes, ht, matchesRes] using ih
      | some fr =>
        cases fr with
        | res fid ok payload err =>
          by_cases hid : fid = id
          · subst hid
            cases ok <;> simp [waitForRes, ht, matchesRes]
          · simpa [waitForRes, ht, matchesRes, hid] using ih
        | event en payload => simpa [waitForRes, ht, matchesRes] using ih
        | other => simpa [waitForRes, ht, matchesRes] using ih

theorem waitForRes_resolved_mem {α : Type} {id : String} {tmo : Nat}
    {frames : List (Timed (Option (RpcFrame α)))} {p : α}
    (h : waitForRes id tmo frames = WaitOutcome.resolved p) :
    ∃ t e, Timed.mk t (some (RpcFrame.res id true p e)) ∈
      beforeTimeout tmo frames := by
  induction frames with
  | nil => simp [waitForRes] at h
  | cons f rest ih =>
    obtain ⟨t, m⟩ := f
    by_cases ht : tmo ≤ t
    · simp [waitForRes, ht] at h
    · have ht2 : t < tmo := Nat.lt_of_not_le ht
      rw [beforeTimeout_cons_of_lt (f := ⟨t, m⟩) ht2]
      cases m with
      | none =>
        obtain ⟨t0, e0, hmem⟩ := ih (by simpa [waitForRes, ht] using h)
        exact ⟨t0, e0, List.mem_cons_of_mem _ hmem⟩
      | some fr =>
        cases fr with
        | res fid ok payload err =>
          by_cases hid : fid = id
          · subst hid
            cases ok with
            | true =>
              have hp : payload = p := by
                simpa [waitForRes, ht] using h
              exact ⟨t, err, by rw [hp]; exact List.mem_cons_self _ _⟩
            | false => simp [waitForRes, ht] at h
          · obtain ⟨t0, e0, hmem⟩ :=
              ih (by simpa [waitForRes, ht, hid] using h)
            exact ⟨t0, e0, List.mem_cons_of_mem _ hmem⟩
        | event en payload =>
          obtain ⟨t0, e0, hmem⟩ := ih (by simpa [waitForRes, ht] using h)
          exact ⟨t0, e0, List.mem_cons_of_mem _ hmem⟩
        | other =>
          obtain ⟨t0, e0, hmem⟩ := ih (by simpa [waitForRes, ht] using h)
          exact ⟨t0, e0, List.mem_cons_of_mem _ hmem⟩

theorem waitForRes_rpcError_mem {α : Type} {id : String} {tmo : Nat}
    {frames : List (Timed (Option (RpcFrame α)))} {e : α}
    (h : waitForRes id tmo frames = WaitOutcome.rpcError e) :
    ∃ t pl, Timed.mk t (some (RpcFrame.res id false pl e)) ∈
      beforeTimeout tmo frames := by
  induction frames with
  | nil => simp [waitForRes] at h
  | cons f rest ih =>
    obtain ⟨t, m⟩ := f
    by_cases ht : tmo ≤ t
    · simp [waitForRes, ht] at h
    · have ht2 : t < tmo := Nat.lt_of_not_le ht
      rw [beforeTimeout_cons_of_lt (f := ⟨t, m⟩) ht2]
      cases m with
      | none =>
        obtain ⟨t0, p0, hmem⟩ := ih (by simpa [waitForRes, ht] using h)
        exact ⟨t0, p0, List.mem_cons_of_mem _ hmem⟩
      | some fr =>
        cases fr with
        | res fid ok payload err =>
          by_cases hid : fid = id
          · subst hid
            cases ok with
            | true => simp [waitForRes, ht] at h
            | false =>
              have hp : err = e := by
                simpa [waitForRes, ht] using h
              exact ⟨t, payload, by rw [hp]; exact List.mem_cons_self _ _⟩
          · obtain ⟨t0, p0, hmem⟩ :=
              ih (by simpa [waitForRes, ht, hid] using h)
            exact ⟨t0, p0, List.mem_cons_of_mem _ hmem⟩
        | event en payload =>
          obtain ⟨t0, p0, hmem⟩ := ih (by simpa [waitForRes, ht] using h)
          exact ⟨t0, p0, List.mem_cons_of_mem _ hmem⟩
        | other =>
          obtain ⟨t0, p0, hmem⟩ := ih (by simpa [waitForRes, ht] using h)
          exact ⟨t0, p0, List.mem_cons_of_mem _ hmem⟩

theorem waitForEvent_timedOut_iff {α : Type} (name : String) (tmo : Nat)
    (frames : List (Timed (Option (RpcFrame α)))) :
    waitForEvent name tmo frames = WaitOutcome.timedOut ↔
      ∀ f ∈ beforeTimeout tmo frames, matchesEvent name f.msg = false := by
  induction frames with
  | nil => simp [waitForEvent, beforeTimeout]
  | cons f rest ih =>
    obtain ⟨t, m⟩ := f
    by_cases ht : tmo ≤ t
    · simp [waitForEvent, ht, beforeTimeout_cons_of_ge (f := ⟨t, m⟩) ht]
    · have ht2 : t < tmo := Nat.lt_of_not_le ht
      rw [beforeTimeout_cons_of_lt (f := ⟨t, m⟩) ht2]
      cases m with
      | none => simpa [waitForEvent, ht, matchesEvent] using ih
      | some fr =>
        cases fr with
        | res fid ok payload err =>
          simpa [waitForEvent, ht, matchesEvent] using ih
        | event en payload =>
          by_cases hen : en = name
          · subst hen
            simp [waitForEvent, ht, matchesEvent]
          · simpa [waitForEvent, ht, matchesEvent, hen] using ih
        | other => simpa [waitForEvent, ht, matchesEvent] using ih

theorem waitForEvent_resolved_mem {α : Type} {name : String} {tmo : Nat}
    {frames : List (Timed (Option (RpcFrame α)))} {p : α}
    (h : waitForEvent name tmo frames = WaitOutcome.resolved p) :
    ∃ t, Timed.mk t (some (RpcFrame.event name p)) ∈
      beforeTimeout tmo frames := by
  induction frames with
  | nil => simp [waitForEvent] at h
  | cons f rest ih =>
    obtain ⟨t, m⟩ := f
    by_cases ht : tmo ≤ t
    · simp [waitForEvent, ht] at h
    · have ht2 : t < tmo := Nat.lt_of_not_le ht
      rw [beforeTimeout_cons_of_lt (f := ⟨t, m⟩) ht2]
      cases m with
      | none =>
        obtain ⟨t0, hmem⟩ := ih (by simpa [waitForEvent, ht] using h)
        exact ⟨t0, List.mem_cons_of_mem _ hmem⟩
      | some fr =>
        cases fr with
        | res fid ok payload err =>
          obtain ⟨t0, hmem⟩ := ih (by simpa [waitForEvent, ht] using h)
          exact ⟨t0, List.mem_cons_of_mem _ hmem⟩
        | event en payload =>
          by_cases hen : en = name
          · subst hen
            have hp : payload = p := by
              simpa [waitForEvent, ht] using h
            exact ⟨t, by rw [hp]; exact List.mem_cons_self _ _⟩
          · obtain ⟨t0, hmem⟩ :=
              ih (by simpa [waitForEvent, ht, hen] using h)
            exact ⟨t0, List.mem_cons_of_mem _ hmem⟩
        | other =>
          obtain ⟨t0, hmem⟩ := ih (by simpa [waitForEvent, ht] using h)
          exact ⟨t0, List.mem_cons_of_mem _ hmem⟩

theorem waitForEvent_ne_rpcError {α : Type} (name : String) (tmo : Nat)
    (frames : List (Timed (Option (RpcFrame α)))) (e : α) :
    waitForEvent name tmo frames ≠ WaitOutcome.rpcError e := by
  induction frames with
  | nil => simp [waitForEvent]
  | cons f rest ih =>
    obtain ⟨t, m⟩ := f
    by_cases ht : tmo ≤ t
    · simp [waitForEvent, ht]
    · cases m with
      | none => simpa [waitForEvent, ht] using ih
      | some fr =>
        cases fr with
        | res fid ok payload err => simpa [waitForEvent, ht] using ih
        | event en payload =>
          by_cases hen : en = name
          · subst hen; simp [waitForEvent, ht]
          · simpa [waitForEvent, ht, hen] using ih
        | other => simpa [waitForEvent, ht] using ih

/-- C4.  `waitForRes` resolves with the payload only when a response
frame with the matching id and `ok:true` arrived before the timer;
rejects carrying the server's error payload only when the matching
response had `ok:false`; and rejects with the timeout exactly when no
response with that id arrived in time.  `waitForEvent` resolves only for
an event frame with the matching name, times out exactly when none
arrived in time, and never rejects with an RPC error.  In particular
neither wait ever resolves for a non-matching id or event name. -/
theorem c4_rpc_wait_semantics {α : Type}
    (frames : List (Timed (Option (RpcFrame α))))
    (id name : String) (tmo : Nat) :
    (∀ p : α, waitForRes id tmo frames = WaitOutcome.resolved p →
        ∃ t e, Timed.mk t (some (RpcFrame.res id true p e)) ∈
          beforeTimeout tmo frames)
  ∧ (∀ e : α, waitForRes id tmo frames = WaitOutcome.rpcError e →
        ∃ t pl, Timed.mk t (some (RpcFrame.res id false pl e)) ∈
          beforeTimeout tmo frames)
  ∧ (waitForRes id tmo frames = WaitOutcome.timedOut ↔
        ∀ f ∈ beforeTimeout tmo frames, matchesRes id f.msg = false)
  ∧ (∀ p : α, waitForEvent name tmo frames = WaitOutcome.resolved p →
        ∃ t, Timed.mk t (some (RpcFrame.event name p)) ∈
          beforeTimeout tmo frames)
  ∧ (waitForEvent name tmo frames = WaitOutcome.timedOut ↔
        ∀ f ∈ beforeTimeout tmo frames, matchesEvent name f.msg = false)
  ∧ (∀ e : α, waitForEvent name tmo frames ≠ WaitOutcome.rpcError e) :=
  ⟨fun _ h => waitForRes_resolved_mem h,
   fun _ h => waitForRes_rpcError_mem h,
   waitForRes_timedOut_iff id tmo frames,
   fun _ h => waitForEvent_resolved_mem h,
   waitForEvent_timedOut_iff name tmo frames,
   waitForEvent_ne_rpcError name tmo frames⟩

/-! ## Handshake phase of `main` (lines 135-231) -/

/-- The observable steps of `main` during the handshake, in program
order. -/
inductive HandshakeOp where
  | armChallengeListener
  | armErrorExitListener
  | awaitOpen
  | awaitChallenge
  | sendConnect
  | awaitConnectRes
deriving DecidableEq, BEq

/-- The handshake steps exactly as `main` performs them: the
`connect.challenge` wait is armed (line 153) before the error listener
(line 155), the open await (line 160), the challenge await (line 167),
the `connect` send (line 193) and the response await (line 217). -/
def mainHandshakeOps : List HandshakeOp :=
  [HandshakeOp.armChallengeListener, HandshakeOp.armErrorExitListener,
   HandshakeOp.awaitOpen, HandshakeOp.awaitChallenge,
   HandshakeOp.sendConnect, HandshakeOp.awaitConnectRes]

/-- C5.  The challenge-event listener is registered before the
connection-open notification is awaited (and before the connect request
is sent), and a `connect.challenge` event delivered at any time after
registration and before the 15s timer — whether immediately on open or
after the connect request went out — resolves the armed wait: the armed
`waitForEvent` resolves whenever any matching frame is in the delivered
prefix, so the challenge is never missed to the open/challenge race. -/
theorem c5_challenge_listener_armed_first (α : Type) :
    mainHandshakeOps.indexOf HandshakeOp.armChallengeListener <
        mainHandshakeOps.indexOf HandshakeOp.awaitOpen
  ∧ mainHandshakeOps.indexOf HandshakeOp.armChallengeListener <
        mainHandshakeOps.indexOf HandshakeOp.sendConnect
  ∧ (∀ frames : List (Timed (Option (RpcFrame α))),
      (∃ f ∈ beforeTimeout 15000 frames,
          matchesEvent "connect.challenge" f.msg = true) →
        ∃ p, waitForEvent "connect.challenge" 15000 frames =
          WaitOutcome.resolved p) := by
  refine ⟨by decide, by decide, ?_⟩
  intro frames hex
  cases h : waitForEvent "connect.challenge" 15000 frames with
  | resolved p => exact ⟨p, rfl⟩
  | rpcError e =>
      exact absurd h (waitForEvent_ne_rpcError "connect.challenge" 15000 frames e)
  | timedOut =>
      obtain ⟨f, hf, hm⟩ := hex
      have hall := (waitForEvent_timedOut_iff "connect.challenge" 15000 frames).mp h
      have := hall f hf
      rw [hm] at this
      exact absurd this (by simp)

/-! ## Post-handshake control flow of `main` (lines 217-312) -/

/-- The slice of the `connect` response that the scope check reads:
`hello.auth?.scopes` — `none` models a missing `auth` object or missing
`scopes` array. -/
structure Hello where
  authScopes : Option (List String)

/-- The denial test `!hello.auth?.scopes?.length` (line 227): true when
the scopes are absent or the granted list is empty. -/
def scopesDenied (h : Hello) : Bool :=
  match h.authScopes with
  | none => true
  | some l => l.isEmpty

/-- An observable action of `main` after the `connect` response. -/
inductive SidecarAction where
  | logDenial
  | closeWs
  | exitProcess (code : Nat)
  | fetchConfig
  | checkHealth
  | registerPairingListener
  | runPendingScan
  | schedulePeriodicScan
  | blockForever
deriving DecidableEq

/-- The actions `main` performs after the `connect` response, from the
source: on denial (lines 227-231) it logs, closes the socket and calls
`process.exit(1)`; otherwise it fetches config, checks health, registers
the pairing listener, runs `approvePending` once, schedules the 30s
interval and blocks forever (lines 233-312). -/
def afterAuthActions (h : Hello) : List SidecarAction :=
  if scopesDenied h then
    [SidecarAction.logDenial, SidecarAction.closeWs,
     SidecarAction.exitProcess 1]
  else
    [SidecarAction.fetchConfig, SidecarAction.checkHealth,
     SidecarAction.registerPairingListener, SidecarAction.runPendingScan,
     SidecarAction.schedulePeriodicScan, SidecarAction.blockForever]

/-- C6.  When the `connect` response is `ok:true` but the granted-scopes
list is empty, `main` logs the denial, closes the channel and exits
without starting the pairing daemon: no pairing listener is registered,
no pending scan runs and no periodic scan is scheduled, so no approval
is ever attempted. -/
theorem c6_empty_scopes_denial (h : Hello) (hs : h.authScopes = some []) :
    afterAuthActions h =
        [SidecarAction.logDenial, SidecarAction.closeWs,
         SidecarAction.exitProcess 1]
  ∧ SidecarAction.registerPairingListener ∉ afterAuthActions h
  ∧ SidecarAction.runPendingScan ∉ afterAuthActions h
  ∧ SidecarAction.schedulePeriodicScan ∉ afterAuthActions h := by
  have hrw : afterAuthActions h =
      [SidecarAction.logDenial, SidecarAction.closeWs,
       SidecarAction.exitProcess 1] := by
    simp [afterAuthActions, scopesDenied, hs]
  rw [hrw]
  refine ⟨rfl, by decide, by decide, by decide⟩

/-- Witness for C6 at the concrete response with `scopes: []`. -/
theorem c6_empty_scopes_denial_witness :
    afterAuthActions ⟨some []⟩ =
        [SidecarAction.logDenial, SidecarAction.closeWs,
         SidecarAction.exitProcess 1]
  ∧ SidecarAction.registerPairingListener ∉ afterAuthActions ⟨some []⟩
  ∧ SidecarAction.runPendingScan ∉ afterAuthActions ⟨some []⟩
  ∧ SidecarAction.schedulePeriodicScan ∉ afterAuthActions ⟨some []⟩ :=
  c6_empty_scopes_denial ⟨some []⟩ rfl

/-! ## Top-level exit codes (lines 135-142, 155-158, 227-231, 315-319) -/

/-- The top-level failure paths of the sidecar process. -/
inductive FailurePath where
  | missingToken
  | wsErrorEvent
  | handshakeTimeout
  | handshakeRpcError
  | authDeniedEmptyScopes
deriving DecidableEq

/-- The exit status the source uses on each top-level failure path:
`process.exit(0)` for a missing token (line 141), `process.exit(1)` in
the WebSocket error listener (line 157), `process.exit(0)` in the
`main().catch` handler reached by handshake timeouts and RPC errors
(line 318), and `process.exit(1)` on the empty-scopes denial
(line 230). -/
def sidecarExitCode : FailurePath → Nat
  | FailurePath.missingToken => 0
  | FailurePath.wsErrorEvent => 1
  | FailurePath.handshakeTimeout => 0
  | FailurePath.handshakeRpcError => 0
  | FailurePath.authDeniedEmptyScopes => 1

/-- C1, counterexample.  The claim that every top-level failure path
exits with status 0 is false: the WebSocket error listener and the
empty-scopes auth denial both exit with status 1. -/
theorem c1_exit_success_counterexample :
    sidecarExitCode FailurePath.wsErrorEvent ≠ 0
  ∧ sidecarExitCode FailurePath.authDeniedEmptyScopes ≠ 0 := by
  decide

/-- C1, amended.  The missing-token path and the errors that reach the
top-level `main().catch` handler (handshake timeout, handshake RPC
error) exit with status 0, but the WebSocket error listener and the
empty-granted-scopes auth denial exit with status 1; the denial path's
exit 1 also appears in the post-handshake action model. -/
theorem c1_exit_codes_amended :
    sidecarExitCode FailurePath.missingToken = 0
  ∧ sidecarExitCode FailurePath.handshakeTimeout = 0
  ∧ sidecarExitCode FailurePath.handshakeRpcError = 0
  ∧ sidecarExitCode FailurePath.wsErrorEvent = 1
  ∧ sidecarExitCode FailurePath.authDeniedEmptyScopes = 1
  ∧ SidecarAction.exitProcess 1 ∈ afterAuthActions ⟨some []⟩ := by
  refine ⟨rfl, rfl, rfl, rfl, rfl, ?_⟩
  simp [afterAuthActions, scopesDenied]

/-! ## Pairing daemon (`pairingListener` lines 254-276, `approvePending`
lines 280-302) -/

/-- The payload of a `device.pair.requested` event and of each entry of
`device.pair.list`'s `pending` array. -/
structure PairingRequest where
  requestId : String
  deviceId : String
  displayName : Option String
  clientId : String
deriving DecidableEq

/-- What the daemon logs for one approval attempt: `then`-branch success
or `catch`-branch failure — in both the event listener and the scan
loop, both outcomes end in a log call and nothing is re-thrown. -/
inductive ApprovalLog where
  | approved (deviceId : String)
  | approvalFailed (deviceId : String)
deriving DecidableEq

/-- Settlement of one `device.pair.approve` await, as handled by the
`.then`/`.catch` pair of `pairingListener` and the `try`/`catch` of the
scan loop: resolution logs success, RPC error and timeout both log
failure. -/
def approveOutcomeLog {α : Type} (deviceId : String)
    (o : WaitOutcome α) : ApprovalLog :=
  match o with
  | WaitOutcome.resolved _ => ApprovalLog.approved deviceId
  | WaitOutcome.rpcError _ => ApprovalLog.approvalFailed deviceId
  | WaitOutcome.timedOut => ApprovalLog.approvalFailed deviceId

/-- The `for (const req of pending)` loop of `approvePending`: each
iteration sends an approve request and awaits it under its own
`try`/`catch`, so the loop always advances to the next request whatever
the i-th await's outcome is.  `outcomes i` is the settlement of the i-th
approve await of the scan. -/
def approveLoop {α : Type} (outcomes : Nat → WaitOutcome α) :
    List PairingRequest → Nat → List ApprovalLog
  | [], _ => []
  | req :: rest, i =>
      approveOutcomeLog req.deviceId (outcomes i) ::
        approveLoop outcomes rest (i + 1)

/-- One run of `approvePending`: await `device.pair.list`
(`listResult?.pending || []` models a resolved payload without a
`pending` array as `none`), run the loop over the pending entries, and
swallow any failure of the list call itself in the outer `catch`
(`ignore errors in periodic check`). -/
def approvePendingScan {α : Type}
    (listOutcome : WaitOutcome (Option (List PairingRequest)))
    (outcomes : Nat → WaitOutcome α) : List ApprovalLog :=
  match listOutcome with
  | WaitOutcome.resolved payload => approveLoop outcomes (payload.getD []) 0
  | _ => []

/-- The scans the daemon performs over time (the immediate call plus one
per 30s interval tick), each with its own list outcome and approve
outcomes. -/
def daemonScans {α : Type}
    (inputs : List (WaitOutcome (Option (List PairingRequest)) ×
      (Nat → WaitOutcome α))) : List (List ApprovalLog) :=
  inputs.map (fun x => approvePendingScan x.1 x.2)

/-- The event-listener side of the daemon (`pairingListener`): a parsed
message triggers an approval exactly when it is a
`device.pair.requested` event, and a malformed (`none`) or non-matching
message triggers nothing. -/
def pairingListenerAction :
    Option (RpcFrame PairingRequest) → Option PairingRequest
  | some (RpcFrame.event en payload) =>
      if en = "device.pair.requested" then some payload else none
  | _ => none

theorem approveLoop_length {α : Type} (outcomes : Nat → WaitOutcome α)
    (pending : List PairingRequest) (i : Nat) :
    (approveLoop outcomes pending i).length = pending.length := by
  induction pending generalizing i with
  | nil => rfl
  | cons req rest ih => simp [approveLoop, ih]

/-- C7.  An approval failure (RPC error or timeout) is logged as a
failure and never aborts anything: the scan loop produces one log entry
per pending request — including requests listed after a failed one and
duplicated request ids, so a second approve of the same `requestId`
is processed like any other — the loop's continuation is independent of
each outcome, and every scheduled scan of the daemon runs regardless of
the outcomes of earlier ones. -/
theorem c7_approval_failures_isolated (α : Type) :
    (∀ (d : String) (e : α),
        approveOutcomeLog d (WaitOutcome.rpcError e) =
            ApprovalLog.approvalFailed d
      ∧ approveOutcomeLog d (WaitOutcome.timedOut (α := α)) =
            ApprovalLog.approvalFailed d)
  ∧ (∀ (outcomes : Nat → WaitOutcome α) (pending : List PairingRequest)
        (i : Nat),
        (approveLoop outcomes pending i).length = pending.length)
  ∧ (∀ (outcomes : Nat → WaitOutcome α) (req : PairingRequest)
        (rest : List PairingRequest) (i : Nat),
        approveLoop outcomes (req :: rest) i =
          approveOutcomeLog req.deviceId (outcomes i) ::
            approveLoop outcomes rest (i + 1))
  ∧ (∀ inputs : List (WaitOutcome (Option (List PairingRequest)) ×
        (Nat → WaitOutcome α)),
        (daemonScans inputs).length = inputs.length)
  ∧ (∀ (outcomes : Nat → WaitOutcome α) (req : PairingRequest) (i : Nat),
        (approveLoop outcomes [req, req] i).length = 2) := by
  refine ⟨fun d e => ⟨rfl, rfl⟩, approveLoop_length, fun _ _ _ _ => rfl,
    fun inputs => ?_, fun outcomes req i => approveLoop_length _ _ _⟩
  simp [daemonScans]

/-- C8.  Malformed inbound frames are silently discarded everywhere:
`parseWsMessage` totalizes the platform parser to an `Option` (the
`catch` branch is the `none` value, never a thrown error); inserting a
malformed frame anywhere in the trace changes the outcome of no pending
`waitForRes`/`waitForEvent`; a trace consisting only of malformed frames
resolves or rejects no wait (both time out); and the pairing listener
takes no action on a malformed frame. -/
theorem c8_malformed_frames_ignored (α : Type) :
    (∀ (jsonParse : String → Option (RpcFrame α)) (ev : WsInput),
        parseWsMessage jsonParse ev = jsonParse (wsInputData ev))
  ∧ (∀ (id : String) (tmo t : Nat)
        (l1 l2 : List (Timed (Option (RpcFrame α)))), t < tmo →
        waitForRes id tmo (l1 ++ Timed.mk t none :: l2) =
          waitForRes id tmo (l1 ++ l2))
  ∧ (∀ (name : String) (tmo t : Nat)
        (l1 l2 : List (Timed (Option (RpcFrame α)))), t < tmo →
        waitForEvent name tmo (l1 ++ Timed.mk t none :: l2) =
          waitForEvent name tmo (l1 ++ l2))
  ∧ (∀ (id : String) (tmo : Nat)
        (frames : List (Timed (Option (RpcFrame α)))),
        (∀ f ∈ frames, f.msg = none) →
        waitForRes id tmo frames = WaitOutcome.timedOut
      ∧ waitForEvent id tmo frames = WaitOutcome.timedOut)
  ∧ pairingListenerAction none = none := by
  refine ⟨fun _ _ => rfl, ?_, ?_, ?_, rfl⟩
  · intro id tmo t l1 l2 ht
    induction l1 with
    | nil => simp [waitForRes, Nat.not_le.mpr ht]
    | cons f rest ih =>
      obtain ⟨tf, m⟩ := f
      by_cases htf : tmo ≤ tf
      · simp [waitForRes, htf]
      · cases m with
        | none => simpa [waitForRes, htf] using ih
        | some fr =>
          cases fr with
          | res fid ok payload err =>
            by_cases hid : fid = id
            · subst hid; simp [waitForRes, htf]
            · simpa [waitForRes, htf, hid] using ih
          | event en payload => simpa [waitForRes, htf] using ih
          | other => simpa [waitForRes, htf] using ih
  · intro name tmo t l1 l2 ht
    induction l1 with
    | nil => simp [waitForEvent, Nat.not_le.mpr ht]
    | cons f rest ih =>
      obtain ⟨tf, m⟩ := f
      by_cases htf : tmo ≤ tf
      · simp [waitForEvent, htf]
      · cases m with
        | none => simpa [waitForEvent, htf] using ih
        | some fr =>
          cases fr with
          | res fid ok payload err => simpa [waitForEvent, htf] using ih
          | event en payload =>
            by_cases hen : en = name
            · subst hen; simp [waitForEvent, htf]
            · simpa [waitForEvent, htf, hen] using ih
          | other => simpa [waitForEvent, htf] using ih
  · intro id tmo frames hall
    constructor
    · rw [waitForRes_timedOut_iff]
      intro f hf
      have : f ∈ frames := mem_of_mem_beforeTimeout hf
      rw [hall f this]
      rfl
    · rw [waitForEvent_timedOut_iff]
      intro f hf
      have : f ∈ frames := mem_of_mem_beforeTimeout hf
      rw [hall f this]
      rfl

/-! ## Bounded-window pairing mode -/

/-- Modelled from the spec: the repository also ships a bounded-window
sidecar variant whose source file is not under src (only the persistent
variant `setup-sidecar.mjs` is); per the spec the pairing daemon has two
operating modes chosen by configuration — the persistent daemon and a
fixed-duration window. -/
inductive SidecarMode where
  | persistent
  | boundedWindow (windowMs : Nat)

/-- An observable action of the bounded-window daemon. -/
inductive WindowAction where
  | approvePendingPass
  | subscribePairing
  | approveFromEvent (requestId : String)
  | removePairingListener
  | closeChannel
deriving DecidableEq

/-- Modelled from the spec: the bounded-window run — on entry a single
enumeration-and-approve pass over already-pending requests, then a live
subscription to the pairing-request event; every event delivered before
window expiry produces an approval; at expiry the event subscription is
removed and the channel is closed. -/
def boundedWindowRun (windowMs : Nat)
    (events : List (Timed PairingRequest)) : List WindowAction :=
  [WindowAction.approvePendingPass, WindowAction.subscribePairing]
    ++ (events.filter (fun e => e.time < windowMs)).map
        (fun e => WindowAction.approveFromEvent e.msg.requestId)
    ++ [WindowAction.removePairingListener, WindowAction.closeChannel]

/-- The pairing daemon's overall behaviour: a finite action list, or
running forever. -/
inductive DaemonBehavior where
  | finite (actions : List WindowAction)
  | runsForever
deriving DecidableEq

/-- The pairing daemon parameterized by the configured mode.  The
persistent branch is the code under src (`await new Promise(() => {})`
never terminates, line 312); the bounded-window branch is modelled from
the spec as `boundedWindowRun`. -/
def runPairingDaemon (mode : SidecarMode)
    (events : List (Timed PairingRequest)) : DaemonBehavior :=
  match mode with
  | SidecarMode.persistent => DaemonBehavior.runsForever
  | SidecarMode.boundedWindow w => DaemonBehavior.finite (boundedWindowRun w events)

/-- C9.  Selecting the bounded-window mode yields a finite task: the run
starts with the single pass over already-pending requests, then the live
subscription; every pairing-request event arriving before window expiry
is approved and only those are (each approval of the run traces back to
such an event); and the run ends by removing the event subscription and
closing the channel, in that order. -/
theorem c9_bounded_window_mode (w : Nat)
    (events : List (Timed PairingRequest)) :
    runPairingDaemon (SidecarMode.boundedWindow w) events =
        DaemonBehavior.finite (boundedWindowRun w events)
  ∧ (boundedWindowRun w events).take 2 =
        [WindowAction.approvePendingPass, WindowAction.subscribePairing]
  ∧ (∀ e ∈ events, e.time < w →
        WindowAction.approveFromEvent e.msg.requestId ∈
          boundedWindowRun w events)
  ∧ (∀ r : String, WindowAction.approveFromEvent r ∈
        boundedWindowRun w events →
        ∃ e ∈ events, e.time < w ∧ e.msg.requestId = r)
  ∧ (∃ l, boundedWindowRun w events =
        l ++ [WindowAction.removePairingListener,
              WindowAction.closeChannel]) := by
  refine ⟨rfl, rfl, ?_, ?_, ?_⟩
  · intro e he hew
    simp only [boundedWindowRun, List.mem_append, List.mem_map,
      List.mem_filter]
    exact Or.inl (Or.inr ⟨e, ⟨he, by simpa using hew⟩, rfl⟩)
  · intro r hr
    simp only [boundedWindowRun, List.mem_append, List.mem_map,
      List.mem_filter, List.mem_cons, List.mem_singleton] at hr
    rcases hr with (h | ⟨e, ⟨he, hew⟩, heq⟩) | h
    · simp at h
    · exact ⟨e, he, by simpa using hew, WindowAction.approveFromEvent.inj heq⟩
    · simp at h
  · exact ⟨[WindowAction.approvePendingPass, WindowAction.subscribePairing]
        ++ (events.filter (fun e => e.time < w)).map
            (fun e => WindowAction.approveFromEvent e.msg.requestId),
      by simp [boundedWindowRun]⟩
